import Mathlib

/-!
Verification of the PoH tick production scheduler
(src/core/src/poh_service.rs).

The scheduler owns one thread that, depending on the shape of the timing
configuration, runs one of three tick-producing strategies (sleepy,
short-lived sleepy, realtime batched hashing) and unconditionally stores
true into the shared exit flag when the strategy returns.

The embedding below is a shallow model of that module:
* pure configuration data and the strategy dispatch of PohService::new;
* the tick-budget arithmetic (TARGET_SLOT_ADJUSTMENT_NS amortisation and
  the unchecked u64 subtraction);
* each strategy's loop as an executable function producing a trace of
  events, with all environment readings (the hash quota completion bit
  returned by Poh::hash, the exit flag reads, clock readings and lock
  hold times) supplied by an oracle, and the realtime loop bounded by
  explicit fuel since it is a genuine while-true loop.
-/

namespace PohService

/-- Number of hashes batched per hash-chain lock acquisition
(DEFAULT_HASHES_PER_BATCH in the source). -/
def DEFAULT_HASHES_PER_BATCH : Nat := 64

/-- Fixed slot-level timing reserve, in nanoseconds
(TARGET_SLOT_ADJUSTMENT_NS in the source). -/
def TARGET_SLOT_ADJUSTMENT_NS : Nat := 50000000

/-- Timing configuration handed to PohService::new.  The Rust PohConfig
(solana_sdk::poh_config) carries hashes_per_tick : Option of u64,
target_tick_duration : Duration (read through as_nanos), and
target_tick_count : Option of u64; the duration is modelled by its
nanosecond count. -/
structure PohConfig where
  hashesPerTick : Option Nat
  targetTickDurationNs : Nat
  targetTickCount : Option Nat
deriving DecidableEq, Repr

/-- The three tick-producing strategies of the scheduler thread. -/
inductive Strategy where
  | sleepy
  | shortLivedSleepy
  | realtime
deriving DecidableEq, Repr

/-- Strategy dispatch performed once at thread start by PohService::new:
nested conditionals on the two optional configuration fields
(poh_service.rs lines 42-52). -/
def selectStrategy (c : PohConfig) : Strategy :=
  if c.hashesPerTick.isNone then
    if c.targetTickCount.isNone then Strategy.sleepy
    else Strategy.shortLivedSleepy
  else Strategy.realtime

/-- Per-tick share of the slot-level reserve:
TARGET_SLOT_ADJUSTMENT_NS / ticks_per_slot when ticks_per_slot > 0,
otherwise 0 (poh_service.rs lines 61-65). -/
def adjustmentPerTick (ticksPerSlot : Nat) : Nat :=
  if 0 < ticksPerSlot then TARGET_SLOT_ADJUSTMENT_NS / ticksPerSlot else 0

/-- Wrapping unsigned 64-bit subtraction, the semantics of the unchecked
u64 subtraction on poh_service.rs line 69 in release mode. -/
def u64Sub (a b : Nat) : Nat :=
  (a % 18446744073709551616 + (18446744073709551616 - b % 18446744073709551616))
    % 18446744073709551616

/-- The target_tick_ns argument computed for the realtime strategy:
tick duration in nanoseconds minus the per-tick adjustment, as an
unchecked u64 subtraction (poh_service.rs line 69). -/
def targetTickNsU64 (durationNs ticksPerSlot : Nat) : Nat :=
  u64Sub durationNs (adjustmentPerTick ticksPerSlot)

/-- The argument tuple (target_tick_ns, ticks_per_slot, hashes_per_batch)
passed to PohService::tick_producer by the realtime branch of
PohService::new (poh_service.rs lines 66-72). -/
def realtimeArgs (c : PohConfig) (ticksPerSlot hashesPerBatch : Nat) :
    Nat × Nat × Nat :=
  (targetTickNsU64 c.targetTickDurationNs ticksPerSlot, ticksPerSlot,
    hashesPerBatch)

/-- Counters flushed by the realtime loop's datapoint_info call
(poh_service.rs lines 162-171), in source order. -/
structure Datapoint where
  ticks : Nat
  hashes : Nat
  elapsedUsPerSlot : Nat
  totalSleepUs : Nat
  totalTickTimeUs : Nat
  totalLockTimeUs : Nat
  totalHashTimeUs : Nat
deriving DecidableEq, Repr

/-- Observable actions of the scheduler thread. -/
inductive Event where
  | lockPoh
  | hashBatch
  | lockRecorder
  | finalizeTick
  | spinWait
  | flush (dp : Datapoint)
  | readExit (b : Bool)
  | storeExit (b : Bool)
  | sleepTick
  | warnIgnoredExit
deriving DecidableEq, Repr

/-- Running totals owned by the realtime loop (poh_service.rs lines
116-123), plus the last_metric flush timestamp modelled as an abstract
clock value. -/
structure RtState where
  numTicks : Nat
  numHashes : Nat
  totalSleepUs : Nat
  totalLockTimeNs : Nat
  totalHashTimeNs : Nat
  totalTickTimeNs : Nat
  lastMetric : Nat
deriving DecidableEq, Repr

/-- Environment oracle for one run of the realtime loop: iteration i reads
shouldTick i as the boolean returned by Poh::hash, exit i as the value of
the shared exit flag at the post-tick checkpoint, the clock readings
elapsedMs i and elapsedUs i of last_metric.elapsed(), now i as the
Instant::now() stored on flush, and the measured durations of the lock
acquisitions, hashing, tick finalisation and spin-wait. -/
structure RtOracle where
  shouldTick : Nat → Bool
  exit : Nat → Bool
  elapsedMs : Nat → Nat
  elapsedUs : Nat → Nat
  now : Nat → Nat
  spinUs : Nat → Nat
  lockPohNs : Nat → Nat
  lockRecNs : Nat → Nat
  hashNs : Nat → Nat
  tickNs : Nat → Nat

/-- Result of one iteration of the realtime loop body. -/
structure RtStepRes where
  state : RtState
  events : List Event
  brk : Bool
deriving DecidableEq, Repr

/-- One iteration of the realtime loop body (poh_service.rs lines
124-184): accumulate hashes_per_batch into num_hashes, acquire the
hash-chain lock and hash one batch; if the batch completed a tick,
acquire the recorder lock, finalize the tick, spin-wait, then (once per
completed tick) flush and reset the counters when more than 1000 ms have
elapsed since the last flush, and finally read the exit flag, breaking
out of the loop when it is true. -/
def rtStep (o : RtOracle) (ticksPerSlot hashesPerBatch i : Nat)
    (s : RtState) : RtStepRes :=
  let numHashes := s.numHashes + hashesPerBatch
  let lockA := s.totalLockTimeNs + o.lockPohNs i
  let hashT := s.totalHashTimeNs + o.hashNs i
  if o.shouldTick i then
    let lockB := lockA + o.lockRecNs i
    let tickT := s.totalTickTimeNs + o.tickNs i
    let numTicks := s.numTicks + 1
    let sleepT := s.totalSleepUs + o.spinUs i
    if 1000 < o.elapsedMs i then
      let dp : Datapoint :=
        ⟨numTicks, numHashes, o.elapsedUs i * ticksPerSlot / numTicks,
          sleepT, tickT / 1000, lockB / 1000, hashT / 1000⟩
      { state := ⟨0, 0, 0, 0, 0, 0, o.now i⟩,
        events := [Event.lockPoh, Event.hashBatch, Event.lockRecorder,
          Event.finalizeTick, Event.spinWait, Event.flush dp,
          Event.readExit (o.exit i)],
        brk := o.exit i }
    else
      { state := ⟨numTicks, numHashes, sleepT, lockB, hashT, tickT,
          s.lastMetric⟩,
        events := [Event.lockPoh, Event.hashBatch, Event.lockRecorder,
          Event.finalizeTick, Event.spinWait, Event.readExit (o.exit i)],
        brk := o.exit i }
  else
    { state := ⟨s.numTicks, numHashes, s.totalSleepUs, lockA, hashT,
        s.totalTickTimeNs, s.lastMetric⟩,
      events := [Event.lockPoh, Event.hashBatch],
      brk := false }

/-- Result of running the realtime loop: the event trace, the final
running totals, and whether the loop actually broke out (terminated)
within the given fuel. -/
structure RtRun where
  trace : List Event
  state : RtState
  terminated : Bool
deriving DecidableEq, Repr

/-- The realtime loop PohService::tick_producer, run for at most fuel
iterations starting at iteration index i. -/
def rtRun (o : RtOracle) (ticksPerSlot hashesPerBatch : Nat) :
    Nat → Nat → RtState → RtRun
  | 0, _, s => ⟨[], s, false⟩
  | fuel + 1, i, s =>
    let r := rtStep o ticksPerSlot hashesPerBatch i s
    if r.brk then ⟨r.events, r.state, true⟩
    else
      let rest := rtRun o ticksPerSlot hashesPerBatch fuel (i + 1) r.state
      ⟨r.events ++ rest.trace, rest.state, rest.terminated⟩

/-- The short-lived sleepy loop body iterated with warned flag and
iteration index made explicit (poh_service.rs lines 97-105): each
iteration sleeps, finalizes a tick, and logs a one-time warning the
first time the exit flag is observed true. -/
def shortLivedAux (e : Nat → Bool) (warned : Bool) (i : Nat) :
    Nat → List Event
  | 0 => []
  | n + 1 =>
    [Event.sleepTick, Event.finalizeTick]
      ++ (if e i && !warned then [Event.warnIgnoredExit] else [])
      ++ shortLivedAux e (warned || e i) (i + 1) n

/-- PohService::short_lived_sleepy_tick_producer with bounded tick count
n and exit-flag readings e. -/
def shortLivedRun (n : Nat) (e : Nat → Bool) : List Event :=
  shortLivedAux e false 0 n

/-- PohService::sleepy_tick_producer (poh_service.rs lines 86-89): read
the exit flag; while it is false, sleep and finalize a tick.  Fuel
bounds the number of reads; none means the fuel ran out before the exit
flag was observed true (the loop had not returned yet). -/
def sleepyAux (e : Nat → Bool) : Nat → Nat → Option (List Event)
  | 0, _ => none
  | fuel + 1, i =>
    if e i then some [Event.readExit true]
    else
      (sleepyAux e fuel (i + 1)).map
        (fun t => Event.readExit false :: Event.sleepTick ::
          Event.finalizeTick :: t)

/-- PohService::sleepy_tick_producer run with the given fuel. -/
def sleepyRun (e : Nat → Bool) (fuel : Nat) : Option (List Event) :=
  sleepyAux e fuel 0

/-- The whole thread closure spawned by PohService::new: dispatch on the
configuration shape, run the selected strategy to completion, then store
true into the exit flag.  none models a run that did not return within
the fuel (or the unreachable unwrap failure of target_tick_count). -/
def threadBody (c : PohConfig) (o : RtOracle)
    (ticksPerSlot hashesPerBatch fuel : Nat) (s : RtState) :
    Option (List Event) :=
  match selectStrategy c with
  | Strategy.sleepy =>
    (sleepyRun o.exit fuel).map (fun t => t ++ [Event.storeExit true])
  | Strategy.shortLivedSleepy =>
    c.targetTickCount.map
      (fun n => shortLivedRun n o.exit ++ [Event.storeExit true])
  | Strategy.realtime =>
    let r := rtRun o ticksPerSlot hashesPerBatch fuel 0 s
    if r.terminated then some (r.trace ++ [Event.storeExit true]) else none

/-- Recognizer for tick finalization events. -/
def isFinalizeTick (e : Event) : Bool :=
  match e with
  | Event.finalizeTick => true
  | _ => false

/-- Recognizer for the ignored-exit-signal warning. -/
def isWarn (e : Event) : Bool :=
  match e with
  | Event.warnIgnoredExit => true
  | _ => false

/-- Recognizer for hash-chain lock acquisitions. -/
def isLockPoh (e : Event) : Bool :=
  match e with
  | Event.lockPoh => true
  | _ => false

/-- Recognizer for hash batches. -/
def isHashBatch (e : Event) : Bool :=
  match e with
  | Event.hashBatch => true
  | _ => false

/-- Recognizer for metrics flushes. -/
def isFlush (e : Event) : Bool :=
  match e with
  | Event.flush _ => true
  | _ => false

/-- Recognizer for sleeps. -/
def isSleep (e : Event) : Bool :=
  match e with
  | Event.sleepTick => true
  | _ => false

/-- Automaton state transition for the exit-read checkpoint discipline:
state 1 means a tick was just finalized, state 2 means its spin-wait
(possibly followed by a metrics flush) has completed; every other event
falls back to state 0. -/
def ckNext (st : Nat) (e : Event) : Nat :=
  match e with
  | Event.finalizeTick => 1
  | Event.spinWait => if st = 1 then 2 else 0
  | Event.flush _ => if st = 2 then 2 else 0
  | _ => 0

/-- Checkpoint discipline: scans a trace and accepts only if every exit
read occurs in automaton state 2, i.e. immediately after a finalized
tick's spin-wait (and optional flush), never mid-batch. -/
def ckOk (st : Nat) : List Event → Bool
  | [] => true
  | e :: rest =>
    (match e with
     | Event.readExit _ => decide (st = 2)
     | _ => true) && ckOk (ckNext st e) rest

/-- A concrete environment whose every batch completes a tick, whose exit
flag reads true from the start, and whose flush clock is past the 1000 ms
threshold; used to evaluate the model on closed inputs. -/
def oracleAllTrue : RtOracle :=
  ⟨fun _ => true, fun _ => true, fun _ => 2000, fun _ => 2000000,
    fun _ => 7, fun _ => 5, fun _ => 10, fun _ => 20, fun _ => 30,
    fun _ => 40⟩

/-- A concrete environment whose batches never complete a tick and whose
exit flag stays false; used to evaluate the model on closed inputs. -/
def oracleQuiet : RtOracle :=
  ⟨fun _ => false, fun _ => false, fun _ => 0, fun _ => 0, fun _ => 0,
    fun _ => 0, fun _ => 0, fun _ => 0, fun _ => 0, fun _ => 0⟩

/-- The zeroed running totals the realtime loop starts from
(poh_service.rs lines 116-123). -/
def rtInit : RtState := ⟨0, 0, 0, 0, 0, 0, 0⟩

end PohService

namespace PohService

/-! ### Helper lemmas -/

lemma adjustmentPerTick_le (tps : Nat) :
    adjustmentPerTick tps ≤ TARGET_SLOT_ADJUSTMENT_NS := by
  unfold adjustmentPerTick
  split
  · exact Nat.div_le_self _ _
  · exact Nat.zero_le _

lemma u64Sub_eq_sub {a b : Nat} (hb : b ≤ a)
    (ha : a < 18446744073709551616) : u64Sub a b = a - b := by
  unfold u64Sub
  omega

lemma u64Sub_of_gt {a b : Nat} (hab : a < b)
    (hbb : b < 18446744073709551616) :
    u64Sub a b = a + 18446744073709551616 - b := by
  unfold u64Sub
  omega

/-! ### Claims C1, C4, C9 -/

/-- Claim C1: the scheduler thread selects exactly one of the three
strategies by the configuration shape: hash-iterations-per-tick unset and
bounded tick count unset gives Sleepy, hash-iterations-per-tick unset and
bounded tick count set gives Short-lived Sleepy, hash-iterations-per-tick
set gives Realtime; and in the Realtime case the argument tuple passed to
the tick producer does not depend on the bounded tick count. -/
theorem poh_c1_strategy_selection (d n h : Nat) (ttc tc : Option Nat)
    (tps hpb : Nat) :
    selectStrategy ⟨none, d, none⟩ = Strategy.sleepy
    ∧ selectStrategy ⟨none, d, some n⟩ = Strategy.shortLivedSleepy
    ∧ selectStrategy ⟨some h, d, ttc⟩ = Strategy.realtime
    ∧ realtimeArgs ⟨some h, d, tc⟩ tps hpb
        = realtimeArgs ⟨some h, d, ttc⟩ tps hpb :=
  ⟨rfl, rfl, rfl, rfl⟩

/-- Claim C4, counterexample: with ticks_per_slot = 3 and a configured
tick duration of 400,000,000 ns the sum of the three per-tick budgets
undershoots the nominal slot duration by 49,999,998 ns, not by the
50,000,000 ns constant the claim states, because the per-tick adjustment
uses integer division. -/
theorem poh_c4_counterexample :
    3 * 400000000 - 3 * targetTickNsU64 400000000 3 = 49999998
    ∧ (49999998 : Nat) ≠ 50000000 := by
  decide

/-- Claim C4 as amended: the per-tick budget equals the configured tick
duration minus the integer quotient 50,000,000 / ticks_per_slot; with
ticks_per_slot = 0 the adjustment is 0; over one slot the budgets
undershoot the nominal slot duration by exactly
ticks_per_slot * (50,000,000 / ticks_per_slot), which is at most
50,000,000 and equals it exactly when ticks_per_slot divides
50,000,000. -/
theorem poh_c4_amended (d tps : Nat) (htps : 0 < tps)
    (hadj : adjustmentPerTick tps ≤ d)
    (hd : d < 18446744073709551616) :
    targetTickNsU64 d tps = d - TARGET_SLOT_ADJUSTMENT_NS / tps
    ∧ adjustmentPerTick 0 = 0
    ∧ tps * d - tps * targetTickNsU64 d tps
        = tps * (TARGET_SLOT_ADJUSTMENT_NS / tps)
    ∧ tps * (TARGET_SLOT_ADJUSTMENT_NS / tps) ≤ TARGET_SLOT_ADJUSTMENT_NS
    ∧ (tps ∣ TARGET_SLOT_ADJUSTMENT_NS →
        tps * d - tps * targetTickNsU64 d tps = TARGET_SLOT_ADJUSTMENT_NS) := by
  have ha : adjustmentPerTick tps = TARGET_SLOT_ADJUSTMENT_NS / tps := by
    unfold adjustmentPerTick
    rw [if_pos htps]
  have he : targetTickNsU64 d tps = d - adjustmentPerTick tps := by
    unfold targetTickNsU64
    exact u64Sub_eq_sub hadj hd
  have hsum : tps * d - tps * targetTickNsU64 d tps
      = tps * (TARGET_SLOT_ADJUSTMENT_NS / tps) := by
    rw [he, ha]
    rw [ha] at hadj
    have h1 : tps * d
        = tps * (d - TARGET_SLOT_ADJUSTMENT_NS / tps)
          + tps * (TARGET_SLOT_ADJUSTMENT_NS / tps) := by
      rw [← Nat.mul_add, Nat.sub_add_cancel hadj]
    rw [h1, Nat.add_sub_cancel_left]
  refine ⟨by rw [he, ha], rfl, hsum, ?_, fun hdvd => ?_⟩
  · rw [Nat.mul_comm]
    exact Nat.div_mul_le_self _ _
  · rw [hsum, Nat.mul_div_cancel' hdvd]

/-- Witness for C4 at ticks_per_slot = 2, tick duration 400,000,000 ns
(2 divides 50,000,000, so the undershoot is exact there). -/
theorem poh_c4_amended_witness :
    targetTickNsU64 400000000 2 = 400000000 - TARGET_SLOT_ADJUSTMENT_NS / 2
    ∧ adjustmentPerTick 0 = 0
    ∧ 2 * 400000000 - 2 * targetTickNsU64 400000000 2
        = 2 * (TARGET_SLOT_ADJUSTMENT_NS / 2)
    ∧ 2 * (TARGET_SLOT_ADJUSTMENT_NS / 2) ≤ TARGET_SLOT_ADJUSTMENT_NS
    ∧ 2 * 400000000 - 2 * targetTickNsU64 400000000 2
        = TARGET_SLOT_ADJUSTMENT_NS :=
  have h := poh_c4_amended 400000000 2 (by decide) (by decide) (by decide)
  ⟨h.1, h.2.1, h.2.2.1, h.2.2.2.1, h.2.2.2.2 (by decide)⟩

/-- Claim C9: the realtime branch computes target_tick_ns by an unchecked
u64 subtraction of the per-tick adjustment from the tick duration; the
wrapped result coincides with the true difference exactly when the
adjustment is at most the duration, and under that precondition the
result is the well-defined non-negative integer difference. -/
theorem poh_c9_underflow (d tps : Nat)
    (hd : d < 18446744073709551616) :
    (targetTickNsU64 d tps = d - adjustmentPerTick tps
      ↔ adjustmentPerTick tps ≤ d)
    ∧ (adjustmentPerTick tps ≤ d →
        (targetTickNsU64 d tps : Int)
            = (d : Int) - (adjustmentPerTick tps : Int)
        ∧ 0 ≤ (d : Int) - (adjustmentPerTick tps : Int)) := by
  have hadj : adjustmentPerTick tps ≤ TARGET_SLOT_ADJUSTMENT_NS :=
    adjustmentPerTick_le tps
  have hc : TARGET_SLOT_ADJUSTMENT_NS = 50000000 := rfl
  constructor
  · constructor
    · intro h
      by_contra hlt
      push_neg at hlt
      have hw := u64Sub_of_gt hlt (by omega)
      unfold targetTickNsU64 at h
      omega
    · intro h
      unfold targetTickNsU64
      exact u64Sub_eq_sub h hd
  · intro h
    have he : targetTickNsU64 d tps = d - adjustmentPerTick tps := by
      unfold targetTickNsU64
      exact u64Sub_eq_sub h hd
    refine ⟨?_, by omega⟩
    rw [he]
    omega

/-- Witness for C9 at tick duration 400,000,000 ns, ticks_per_slot = 3. -/
theorem poh_c9_underflow_witness :
    targetTickNsU64 400000000 3 = 400000000 - adjustmentPerTick 3
    ∧ (targetTickNsU64 400000000 3 : Int)
        = (400000000 : Int) - (adjustmentPerTick 3 : Int) :=
  ⟨((poh_c9_underflow 400000000 3 (by decide)).1).mpr (by decide),
   ((poh_c9_underflow 400000000 3 (by decide)).2 (by decide)).1⟩

end PohService

namespace PohService

/-! ### The short-lived sleepy strategy: claims C2 and C7 -/

lemma shortLivedAux_counts (e : Nat → Bool) (n : Nat) :
    ∀ (w : Bool) (i : Nat),
      (shortLivedAux e w i n).countP isFinalizeTick = n
      ∧ (shortLivedAux e w i n).countP isSleep = n := by
  induction n with
  | zero =>
    intro w i
    simp [shortLivedAux]
  | succ n ih =>
    intro w i
    have h := ih (w || e i) (i + 1)
    cases hc : (e i && !w) <;>
      simp [shortLivedAux, hc, List.countP_append, List.countP_cons,
        isFinalizeTick, isSleep, h.1, h.2]

lemma shortLivedAux_warns (e : Nat → Bool) (n : Nat) :
    ∀ (w : Bool) (i : Nat),
      (shortLivedAux e w i n).countP isWarn
        = if w then 0 else if (List.range' i n).any e then 1 else 0 := by
  induction n with
  | zero =>
    intro w i
    cases w <;> simp [shortLivedAux]
  | succ n ih =>
    intro w i
    rw [List.range'_succ i n 1]
    cases w
    · have h := ih (e i) (i + 1)
      cases he : e i
      · rw [he] at h
        simp only [Bool.false_eq_true, if_false] at h
        simp [shortLivedAux, he, List.countP_append, List.countP_cons,
          isWarn, h]
        rw [he]
        cases (List.range' (i + 1) n).any e <;> rfl
      · rw [he] at h
        simp only [if_pos rfl] at h
        simp [shortLivedAux, he, List.countP_append, List.countP_cons,
          isWarn, h]
    · have h := ih true (i + 1)
      simp only [if_pos rfl] at h
      simp [shortLivedAux, List.countP_append, List.countP_cons, isWarn, h]

lemma shortLivedAux_append (e : Nat → Bool) (k : Nat) :
    ∀ (m : Nat) (w : Bool) (i : Nat),
      shortLivedAux e w i (k + m)
        = shortLivedAux e w i k
          ++ shortLivedAux e (w || (List.range' i k).any e) (i + k) m := by
  induction k with
  | zero =>
    intro m w i
    simp [shortLivedAux]
  | succ k ih =>
    intro m w i
    have hn : k + 1 + m = (k + m) + 1 := by omega
    have hi : i + 1 + k = i + (k + 1) := by omega
    rw [hn]
    rw [List.range'_succ i k 1]
    simp only [shortLivedAux, ih (m := m) (w := w || e i) (i := i + 1),
      List.append_assoc, List.any_cons, Bool.or_assoc, hi]

/-- Claim C2: for every bounded tick count n the short-lived sleepy
strategy performs exactly n sleep calls and exactly n finalize-tick
calls and then returns, for every behaviour e of the exit signal. -/
theorem poh_c2_short_lived_exact (n : Nat) (e : Nat → Bool) :
    (shortLivedRun n e).countP isFinalizeTick = n
    ∧ (shortLivedRun n e).countP isSleep = n :=
  shortLivedAux_counts e n false 0

/-- Claim C7: in one short-lived run the ignored-exit-signal warning is
logged exactly once when some iteration observes the signal true and
never otherwise; it fires at the first such observation, as shown by the
count holding over every run length together with the fact that a longer
run extends a shorter one; and the run still performs its full bounded
number of ticks. -/
theorem poh_c7_warn_once (e : Nat → Bool) (n k m : Nat) :
    (shortLivedRun n e).countP isWarn
      = (if (List.range n).any e then 1 else 0)
    ∧ (shortLivedRun n e).countP isFinalizeTick = n
    ∧ ∃ t, shortLivedRun (k + m) e = shortLivedRun k e ++ t := by
  refine ⟨?_, (shortLivedAux_counts e n false 0).1, ?_⟩
  · have h := shortLivedAux_warns e n false 0
    rw [List.range_eq_range' n]
    simpa using h
  · exact ⟨_, by simpa using shortLivedAux_append e k m false 0⟩

end PohService

namespace PohService

/-! ### Terminal exit store: claim C5 -/

lemma getLast?_append_single {α : Type} (l : List α) (a : α) :
    (l ++ [a]).getLast? = some a := by
  rw [List.getLast?_append_of_ne_nil l (by simp)]
  rfl

/-- Claim C5: for every configuration (hence every strategy) and every
environment, whenever the thread body returns, the last action of the
thread is the unconditional store of true into the exit flag, regardless
of the flag's earlier value. -/
theorem poh_c5_exit_stored (c : PohConfig) (o : RtOracle)
    (tps hpb fuel : Nat) (s : RtState) (tr : List Event)
    (h : threadBody c o tps hpb fuel s = some tr) :
    tr.getLast? = some (Event.storeExit true) := by
  unfold threadBody at h
  cases hs : selectStrategy c with
  | sleepy =>
    rw [hs] at h
    cases hr : sleepyRun o.exit fuel with
    | none =>
      rw [hr] at h
      simp at h
    | some t =>
      rw [hr] at h
      simp at h
      rw [← h]
      exact getLast?_append_single t _
  | shortLivedSleepy =>
    rw [hs] at h
    cases ht : c.targetTickCount with
    | none =>
      rw [ht] at h
      simp at h
    | some n =>
      rw [ht] at h
      simp at h
      rw [← h]
      exact getLast?_append_single _ _
  | realtime =>
    rw [hs] at h
    by_cases hterm : (rtRun o tps hpb fuel 0 s).terminated = true
    · rw [if_pos hterm] at h
      simp at h
      rw [← h]
      exact getLast?_append_single _ _
    · rw [if_neg hterm] at h
      simp at h

/-- Witness for C5: a short-lived configuration with bounded tick count 1
whose thread body returns; its final action is the exit store. -/
theorem poh_c5_exit_stored_witness :
    (shortLivedRun 1 oracleQuiet.exit
      ++ [Event.storeExit true]).getLast? = some (Event.storeExit true) :=
  poh_c5_exit_stored ⟨none, 5, some 1⟩ oracleQuiet 4 64 3 rtInit _ rfl

end PohService

namespace PohService

/-! ### The realtime strategy loop: claims C3, C6, C8, C10 -/

lemma rtStep_brk (o : RtOracle) (tps hpb i : Nat) (s : RtState) :
    (rtStep o tps hpb i s).brk = (o.shouldTick i && o.exit i) := by
  cases hst : o.shouldTick i
  · simp [rtStep, hst]
  · by_cases hel : 1000 < o.elapsedMs i
    · simp [rtStep, hst, hel]
    · simp [rtStep, hst, hel]

lemma ckOk_step (o : RtOracle) (tps hpb i : Nat) (s : RtState)
    (st : Nat) (rest : List Event) :
    ckOk st ((rtStep o tps hpb i s).events ++ rest) = ckOk 0 rest := by
  cases hst : o.shouldTick i
  · simp [rtStep, hst, ckOk, ckNext]
  · by_cases hel : 1000 < o.elapsedMs i
    · simp [rtStep, hst, hel, ckOk, ckNext]
    · simp [rtStep, hst, hel, ckOk, ckNext]

lemma ckOk_rtRun (o : RtOracle) (tps hpb : Nat) :
    ∀ (fuel i : Nat) (s : RtState),
      ckOk 0 (rtRun o tps hpb fuel i s).trace = true := by
  intro fuel
  induction fuel with
  | zero =>
    intro i s
    simp [rtRun, ckOk]
  | succ fuel ih =>
    intro i s
    by_cases hbrk : (rtStep o tps hpb i s).brk = true
    · simp only [rtRun, if_pos hbrk]
      have h := ckOk_step o tps hpb i s 0 []
      simpa using h
    · simp only [rtRun, if_neg hbrk]
      rw [ckOk_step]
      exact ih (i + 1) _

lemma rtStep_events_last (o : RtOracle) (tps hpb i : Nat) (s : RtState)
    (hbrk : (rtStep o tps hpb i s).brk = true) :
    (rtStep o tps hpb i s).events.getLast? = some (Event.readExit true) := by
  cases hst : o.shouldTick i
  · simp [rtStep, hst] at hbrk
  · by_cases hel : 1000 < o.elapsedMs i
    · simp [rtStep, hst, hel] at hbrk ⊢
      rw [hbrk]
    · simp [rtStep, hst, hel] at hbrk ⊢
      rw [hbrk]

lemma rtRun_term_last (o : RtOracle) (tps hpb : Nat) :
    ∀ (fuel i : Nat) (s : RtState),
      (rtRun o tps hpb fuel i s).terminated = true →
      (rtRun o tps hpb fuel i s).trace.getLast?
        = some (Event.readExit true) := by
  intro fuel
  induction fuel with
  | zero =>
    intro i s h
    simp [rtRun] at h
  | succ fuel ih =>
    intro i s
    by_cases hbrk : (rtStep o tps hpb i s).brk = true
    · simp only [rtRun, if_pos hbrk]
      intro _
      exact rtStep_events_last o tps hpb i s hbrk
    · simp only [rtRun, if_neg hbrk]
      intro hterm
      have hlast := ih (i + 1) _ hterm
      have hne : (rtRun o tps hpb fuel (i + 1)
          (rtStep o tps hpb i s).state).trace ≠ [] := by
        intro hnil
        rw [hnil] at hlast
        simp at hlast
      rw [List.getLast?_append_of_ne_nil _ hne]
      exact hlast

lemma rtStep_finalize_count (o : RtOracle) (tps hpb i : Nat)
    (s : RtState) :
    (rtStep o tps hpb i s).events.countP isFinalizeTick
      = if o.shouldTick i then 1 else 0 := by
  cases hst : o.shouldTick i
  · simp [rtStep, hst, isFinalizeTick]
  · by_cases hel : 1000 < o.elapsedMs i
    · simp [rtStep, hst, hel, isFinalizeTick]
    · simp [rtStep, hst, hel, isFinalizeTick]

lemma rtRun_finalize_le_one (o : RtOracle) (tps hpb : Nat)
    (hexit : ∀ j, o.exit j = true) :
    ∀ (fuel i : Nat) (s : RtState),
      (rtRun o tps hpb fuel i s).trace.countP isFinalizeTick ≤ 1 := by
  intro fuel
  induction fuel with
  | zero =>
    intro i s
    simp [rtRun]
  | succ fuel ih =>
    intro i s
    have hcnt := rtStep_finalize_count o tps hpb i s
    have hbrk := rtStep_brk o tps hpb i s
    rw [hexit i] at hbrk
    cases hst : o.shouldTick i
    · rw [hst] at hbrk hcnt
      simp only [Bool.false_and] at hbrk
      simp only [rtRun, hbrk, Bool.false_eq_true, if_false]
      rw [List.countP_append]
      simp only [Bool.false_eq_true, if_false] at hcnt
      rw [hcnt]
      simpa using ih (i + 1) _
    · rw [hst] at hbrk hcnt
      simp only [Bool.true_and] at hbrk
      simp only [rtRun, if_pos hbrk]
      simp only [hcnt]
      simp

/-- Claim C3: in the realtime loop the exit flag is read only at the
checkpoint after a tick is finalized and its spin-wait (and optional
metrics flush) completes (ckOk accepts every trace, and a read is
accepted only in the post-spin automaton state), the loop only
terminates at such a checkpoint with a true read as its last action, and
once the exit flag is true every continuation of the loop finalizes at
most one further tick before returning. -/
theorem poh_c3_exit_checkpoint (o : RtOracle) (tps hpb fuel i : Nat)
    (s : RtState) :
    ckOk 0 (rtRun o tps hpb fuel i s).trace = true
    ∧ ((rtRun o tps hpb fuel i s).terminated = true →
        (rtRun o tps hpb fuel i s).trace.getLast?
          = some (Event.readExit true))
    ∧ ((∀ j, o.exit j = true) →
        (rtRun o tps hpb fuel i s).trace.countP isFinalizeTick ≤ 1) :=
  ⟨ckOk_rtRun o tps hpb fuel i s,
   rtRun_term_last o tps hpb fuel i s,
   fun h => rtRun_finalize_le_one o tps hpb h fuel i s⟩

/-- Witness for C3: with the exit flag true from the start, a 3-fuel run
terminates at the post-tick checkpoint having produced exactly one tick. -/
theorem poh_c3_exit_checkpoint_witness :
    ckOk 0 (rtRun oracleAllTrue 4 64 3 0 rtInit).trace = true
    ∧ (rtRun oracleAllTrue 4 64 3 0 rtInit).trace.getLast?
        = some (Event.readExit true)
    ∧ (rtRun oracleAllTrue 4 64 3 0 rtInit).trace.countP isFinalizeTick ≤ 1 :=
  ⟨(poh_c3_exit_checkpoint oracleAllTrue 4 64 3 0 rtInit).1,
   (poh_c3_exit_checkpoint oracleAllTrue 4 64 3 0 rtInit).2.1 (by decide),
   (poh_c3_exit_checkpoint oracleAllTrue 4 64 3 0 rtInit).2.2
     (fun j => rfl)⟩

end PohService

namespace PohService

/-- Claim C6: whenever a tick completes and more than 1000 ms have
elapsed since the last flush, the iteration emits exactly one metrics
flush whose tick figure is the just-incremented tick counter, whose
elapsed figure is the elapsed microseconds scaled by ticks_per_slot and
divided by that tick counter, and the running totals afterwards are all
zero with the flush timestamp set to now. -/
theorem poh_c6_flush_resets (o : RtOracle) (tps hpb i : Nat)
    (s : RtState) (hst : o.shouldTick i = true)
    (hel : 1000 < o.elapsedMs i) :
    ∃ dp : Datapoint,
      (rtStep o tps hpb i s).events.countP isFlush = 1
      ∧ Event.flush dp ∈ (rtStep o tps hpb i s).events
      ∧ dp.ticks = s.numTicks + 1
      ∧ dp.hashes = s.numHashes + hpb
      ∧ dp.elapsedUsPerSlot = o.elapsedUs i * tps / (s.numTicks + 1)
      ∧ (rtStep o tps hpb i s).state = ⟨0, 0, 0, 0, 0, 0, o.now i⟩ := by
  refine ⟨⟨s.numTicks + 1, s.numHashes + hpb,
    o.elapsedUs i * tps / (s.numTicks + 1), s.totalSleepUs + o.spinUs i,
    (s.totalTickTimeNs + o.tickNs i) / 1000,
    (s.totalLockTimeNs + o.lockPohNs i + o.lockRecNs i) / 1000,
    (s.totalHashTimeNs + o.hashNs i) / 1000⟩, ?_, ?_, rfl, rfl, rfl, ?_⟩
  · simp [rtStep, hst, hel, isFlush, List.countP_cons]
  · simp [rtStep, hst, hel]
  · simp [rtStep, hst, hel]

/-- Witness for C6 at a state with nonzero running totals. -/
theorem poh_c6_flush_resets_witness :
    ∃ dp : Datapoint,
      (rtStep oracleAllTrue 4 64 0 ⟨2, 5, 7, 11, 13, 17, 3⟩).events.countP
          isFlush = 1
      ∧ Event.flush dp
          ∈ (rtStep oracleAllTrue 4 64 0 ⟨2, 5, 7, 11, 13, 17, 3⟩).events
      ∧ dp.ticks = 2 + 1
      ∧ dp.hashes = 5 + 64
      ∧ dp.elapsedUsPerSlot = oracleAllTrue.elapsedUs 0 * 4 / (2 + 1)
      ∧ (rtStep oracleAllTrue 4 64 0 ⟨2, 5, 7, 11, 13, 17, 3⟩).state
          = ⟨0, 0, 0, 0, 0, 0, oracleAllTrue.now 0⟩ :=
  poh_c6_flush_resets oracleAllTrue 4 64 0 ⟨2, 5, 7, 11, 13, 17, 3⟩
    rfl (by decide)

lemma rtStep_flush_ticks (o : RtOracle) (tps hpb i : Nat) (s : RtState)
    (dp : Datapoint)
    (h : Event.flush dp ∈ (rtStep o tps hpb i s).events) :
    0 < dp.ticks := by
  cases hst : o.shouldTick i
  · simp [rtStep, hst] at h
  · by_cases hel : 1000 < o.elapsedMs i
    · simp [rtStep, hst, hel] at h
      rw [h]
      exact Nat.succ_pos _
    · simp [rtStep, hst, hel] at h

/-- Claim C10: every metrics flush the realtime loop ever emits carries a
strictly positive tick count (the counter was incremented for the
just-completed tick before the flush and is reset only together with the
flush itself), so the division of elapsed time by the tick count inside
the flush is never a division by zero. -/
theorem poh_c10_flush_divisor_pos (o : RtOracle) (tps hpb : Nat) :
    ∀ (fuel i : Nat) (s : RtState) (dp : Datapoint),
      Event.flush dp ∈ (rtRun o tps hpb fuel i s).trace → 0 < dp.ticks := by
  intro fuel
  induction fuel with
  | zero =>
    intro i s dp h
    simp [rtRun] at h
  | succ fuel ih =>
    intro i s dp h
    by_cases hbrk : (rtStep o tps hpb i s).brk = true
    · simp only [rtRun, if_pos hbrk] at h
      exact rtStep_flush_ticks o tps hpb i s dp h
    · simp only [rtRun, if_neg hbrk] at h
      rcases List.mem_append.mp h with h | h
      · exact rtStep_flush_ticks o tps hpb i s dp h
      · exact ih (i + 1) _ dp h

/-- Witness for C10: the flush emitted by a one-iteration run from the
zero state carries tick count 1. -/
theorem poh_c10_flush_divisor_pos_witness :
    0 < (Datapoint.mk 1 64 8000000 5 0 0 0).ticks :=
  poh_c10_flush_divisor_pos oracleAllTrue 4 64 1 0 rtInit
    ⟨1, 64, 8000000, 5, 0, 0, 0⟩ (by decide)

lemma rtStep_acq_counts (o : RtOracle) (tps hpb i : Nat) (s : RtState) :
    (rtStep o tps hpb i s).events.countP isLockPoh = 1
    ∧ (rtStep o tps hpb i s).events.countP isHashBatch = 1 := by
  cases hst : o.shouldTick i
  · constructor <;> simp [rtStep, hst, isLockPoh, isHashBatch]
  · by_cases hel : 1000 < o.elapsedMs i
    · constructor <;> simp [rtStep, hst, hel, isLockPoh, isHashBatch]
    · constructor <;> simp [rtStep, hst, hel, isLockPoh, isHashBatch]

lemma rtRun_acq_counts (o : RtOracle) (tps hpb : Nat)
    (hexit : ∀ j, o.exit j = false) :
    ∀ (fuel i : Nat) (s : RtState),
      (rtRun o tps hpb fuel i s).trace.countP isLockPoh = fuel
      ∧ (rtRun o tps hpb fuel i s).trace.countP isHashBatch = fuel := by
  intro fuel
  induction fuel with
  | zero =>
    intro i s
    simp [rtRun]
  | succ fuel ih =>
    intro i s
    have hbrk := rtStep_brk o tps hpb i s
    rw [hexit i, Bool.and_false] at hbrk
    have hc := rtStep_acq_counts o tps hpb i s
    have h := ih (i + 1) (rtStep o tps hpb i s).state
    simp only [rtRun, hbrk, Bool.false_eq_true, if_false]
    constructor <;>
      rw [List.countP_append] <;> omega

/-- Claim C8: for a fixed positive total number of hash iterations that
both batch sizes realize exactly (the loop performs exactly its batch
size of hash iterations per hash-chain lock acquisition), the run using
the strictly larger batch size acquires the hash-chain lock strictly
fewer times. -/
theorem poh_c8_batch_tradeoff (o₁ o₂ : RtOracle)
    (tps₁ tps₂ b₁ b₂ f₁ f₂ : Nat) (s₁ s₂ : RtState)
    (h₁ : ∀ j, o₁.exit j = false) (h₂ : ∀ j, o₂.exit j = false)
    (hb : b₁ < b₂)
    (hsame : (rtRun o₁ tps₁ b₁ f₁ 0 s₁).trace.countP isHashBatch * b₁
        = (rtRun o₂ tps₂ b₂ f₂ 0 s₂).trace.countP isHashBatch * b₂)
    (hpos : 0 < (rtRun o₁ tps₁ b₁ f₁ 0 s₁).trace.countP isHashBatch * b₁) :
    (rtRun o₂ tps₂ b₂ f₂ 0 s₂).trace.countP isLockPoh
      < (rtRun o₁ tps₁ b₁ f₁ 0 s₁).trace.countP isLockPoh := by
  have e₁ := rtRun_acq_counts o₁ tps₁ b₁ h₁ f₁ 0 s₁
  have e₂ := rtRun_acq_counts o₂ tps₂ b₂ h₂ f₂ 0 s₂
  rw [e₁.2, e₂.2] at hsame
  rw [e₁.2] at hpos
  rw [e₁.1, e₂.1]
  have hf₁ : 0 < f₁ := by
    rcases Nat.eq_zero_or_pos f₁ with h | h
    · rw [h] at hpos
      simp at hpos
    · exact h
  have hlt : f₂ * b₂ < f₁ * b₂ := by
    rw [← hsame]
    exact Nat.mul_lt_mul_of_le_of_lt (Nat.le_refl f₁) hb hf₁
  exact Nat.lt_of_mul_lt_mul_right hlt

/-- Witness for C8: 128 hash iterations as 2 acquisitions of batch 64
against 1 acquisition of batch 128. -/
theorem poh_c8_batch_tradeoff_witness :
    (rtRun oracleQuiet 4 128 1 0 rtInit).trace.countP isLockPoh
      < (rtRun oracleQuiet 4 64 2 0 rtInit).trace.countP isLockPoh :=
  poh_c8_batch_tradeoff oracleQuiet oracleQuiet 4 4 64 128 2 1 rtInit rtInit
    (fun j => rfl) (fun j => rfl) (by decide) (by decide) (by decide)

end PohService
